import Mathlib

/-!
Verification development for the sindit-senml library (src/lib.rs, src/time.rs,
src/validate_name.rs).  The resolver, the time converter, the value-kind
resolver and the name validator are embedded as executable Lean functions,
translated statement by statement from the Rust source.

Numeric model: the Rust code computes on IEEE-754 f64.  Here an f64 is an
inductive `F64`: a finite value carried as an exact rational, or NaN, or one of
the two infinities.  Finite arithmetic is exact where IEEE rounds; every
theorem below is about control flow, finiteness, threshold comparison or
integer-valued data, none of which depends on rounding at the inputs involved.
Rational helper operations are written through `mkRat` (rather than the
`Rat.add`/`Rat.mul`/`Rat.sub` library functions, which are irreducible and so
opaque to kernel evaluation) and are proved equal to the library operations.

External collaborators (chrono date-time arithmetic, base64, serde_json field
codec) are modelled from their documented interface contracts, as the spec
treats them: each such definition carries a comment naming the contract.
-/

set_option maxRecDepth 8000

namespace SenML

/-! ## Exact rational helpers (kernel-evaluable) -/

/-- Addition of rationals via `mkRat`; equals `a + b` (lemma `qAdd_eq`). -/
def qAdd (a b : ℚ) : ℚ := mkRat (a.num * (b.den : ℤ) + b.num * (a.den : ℤ)) (a.den * b.den)

/-- Subtraction of rationals via `mkRat`; equals `a - b` (lemma `qSub_eq`). -/
def qSub (a b : ℚ) : ℚ := mkRat (a.num * (b.den : ℤ) - b.num * (a.den : ℤ)) (a.den * b.den)

/-- Multiplication of rationals via `mkRat`; equals `a * b` (lemma `qMul_eq`). -/
def qMul (a b : ℚ) : ℚ := mkRat (a.num * b.num) (a.den * b.den)

/-- The rational with value `n`; equals the integer cast (lemma `qOfInt_eq`). -/
def qOfInt (n : ℤ) : ℚ := mkRat n 1

/-- Truncation toward zero, as Rust's `f64::trunc` on an exact rational:
numerator divided by the positive denominator, rounding toward zero. -/
def ratTrunc (q : ℚ) : ℤ := Int.tdiv q.num (q.den : ℤ)

/-- Fractional part, as Rust's `f64::fract`: `q - q.trunc()`.  It carries the
sign of `q`. -/
def ratFract (q : ℚ) : ℚ := qSub q (qOfInt (ratTrunc q))

/-! ## The f64 model -/

/-- An IEEE-754 double, modelled as an exact rational when finite. -/
inductive F64 where
  | finite (q : ℚ)
  | nan
  | posInf
  | negInf
deriving DecidableEq

/-- Rust `f64::is_finite`. -/
def F64.isFinite : F64 → Bool
  | .finite _ => true
  | _ => false

/-- Magnitude at which the model's addition overflows to an infinity
(`2^1024`; IEEE rounding makes the true threshold marginally smaller, far
beyond every value any claim touches). -/
def f64OverflowBound : ℚ := mkRat (Int.ofNat (Nat.pow 2 1024)) 1

/-- IEEE f64 addition on the model: NaN propagates, opposite infinities give
NaN, an infinity absorbs, and finite values add exactly (with overflow to the
signed infinity). -/
def F64.add : F64 → F64 → F64
  | .nan, _ => .nan
  | _, .nan => .nan
  | .posInf, .negInf => .nan
  | .negInf, .posInf => .nan
  | .posInf, _ => .posInf
  | _, .posInf => .posInf
  | .negInf, _ => .negInf
  | _, .negInf => .negInf
  | .finite a, .finite b =>
    if f64OverflowBound ≤ qAdd a b then .posInf
    else if qAdd a b ≤ -f64OverflowBound then .negInf
    else .finite (qAdd a b)

/-- Largest i64 value. -/
def i64MaxInt : ℤ := 9223372036854775807

/-- Smallest i64 value. -/
def i64MinInt : ℤ := -9223372036854775808

/-- Rust's `as i64` cast from f64: rounds toward zero and saturates at the
i64 bounds; NaN casts to 0. -/
def F64.asI64 : F64 → ℤ
  | .finite q =>
    if ratTrunc q < i64MinInt then i64MinInt
    else if i64MaxInt < ratTrunc q then i64MaxInt
    else ratTrunc q
  | .nan => 0
  | .posInf => i64MaxInt
  | .negInf => i64MinInt

/-! ## Model of the chrono collaborator (documented API contract)

`chrono::DateTime<Utc>` is a calendar-checked pair of a Unix-epoch second
count and a subsecond nanosecond count.  Its documented representable range is
`-262143-01-01T00:00:00Z` to `+262142-12-31T23:59:59.999999999Z`, i.e. second
counts `-8334601228800` to `8210266876799`.  `DateTime::from_timestamp`
returns `None` outside that range or when the nanosecond argument reaches
2·10^9; `Duration::seconds` panics beyond ±(i64::MAX / 1000) seconds; `+` on
`DateTime` panics (via `checked_add_signed(..).expect(..)`) when the result
leaves the representable range. -/

/-- A `chrono::DateTime<Utc>` value: seconds since the Unix epoch plus
subsecond nanoseconds. -/
structure DateTime where
  secs : ℤ
  nanos : ℤ
deriving DecidableEq

/-- Least representable `DateTime` second count (chrono contract). -/
def chronoMinTs : ℤ := -8334601228800

/-- Greatest representable `DateTime` second count (chrono contract). -/
def chronoMaxTs : ℤ := 8210266876799

/-- Model of `chrono::DateTime::<Utc>::from_timestamp(secs, nsecs)`: `None`
on an out-of-range second count or a nanosecond count at or above 2·10^9. -/
def fromTimestamp (secs : ℤ) (nsecs : ℤ) : Option DateTime :=
  if chronoMinTs ≤ secs ∧ secs ≤ chronoMaxTs ∧ 0 ≤ nsecs ∧ nsecs < 2000000000
  then some ⟨secs, nsecs⟩ else none

/-- Bound of `chrono::Duration::seconds` (± i64::MAX / 1000). -/
def durationSecsBound : ℤ := 9223372036854775

/-- Model of `chrono::Duration::seconds(s)`: `none` models the documented
out-of-bounds panic. -/
def durationSeconds (s : ℤ) : Option ℤ :=
  if -durationSecsBound ≤ s ∧ s ≤ durationSecsBound then some s else none

/-- Model of `DateTime + Duration` (chrono `checked_add_signed`): normalised
second/nanosecond arithmetic, `none` (the `expect` panic) when the result
leaves the representable range. -/
def dateTimeAdd (d : DateTime) (dsecs dnanos : ℤ) : Option DateTime :=
  if chronoMinTs ≤ ((d.secs + dsecs) * 1000000000 + d.nanos + dnanos) / 1000000000 ∧
      ((d.secs + dsecs) * 1000000000 + d.nanos + dnanos) / 1000000000 ≤ chronoMaxTs
  then some ⟨((d.secs + dsecs) * 1000000000 + d.nanos + dnanos) / 1000000000,
    ((d.secs + dsecs) * 1000000000 + d.nanos + dnanos) % 1000000000⟩
  else none

/-- Outcome of the time conversion: a date-time, a rejection (`None` in the
Rust source), or a process-aborting panic inside chrono arithmetic. -/
inductive TimeResult where
  | ok (d : DateTime)
  | invalid
  | panic
deriving DecidableEq

/-- Threshold `2^28` from src/time.rs line 15: at or above it a SenML time is
an absolute Unix-epoch timestamp, below it an offset relative to now. -/
def TIME_THRESHOLD : ℚ := 268435456

/-- One second in nanoseconds, as a rational. -/
def billionQ : ℚ := 1000000000

/-- Embedding of `convert_senml_time` (src/time.rs lines 34-60).  Non-finite
input is rejected; the input is split into truncated whole seconds and
truncated nanoseconds; at or above `TIME_THRESHOLD` it is an absolute
timestamp (`DateTime::from_timestamp`), otherwise it is added to `now` as
`Duration::seconds(..)` then `Duration::nanoseconds(..)`. -/
def convert_senml_time (seconds : F64) (now : DateTime) : TimeResult :=
  match seconds with
  | .nan => .invalid
  | .posInf => .invalid
  | .negInf => .invalid
  | .finite q =>
    let whole_seconds : ℤ := F64.asI64 (.finite q)
    let frac_seconds : ℚ := ratFract q
    let nanoseconds : ℤ :=
      if frac_seconds = 0 then 0
      else F64.asI64 (.finite (qMul frac_seconds billionQ))
    if TIME_THRESHOLD ≤ q then
      match fromTimestamp whole_seconds (nanoseconds % 4294967296) with
      | some d => .ok d
      | none => .invalid
    else
      match durationSeconds whole_seconds with
      | none => .panic
      | some ds =>
        match dateTimeAdd now ds 0 with
        | none => .panic
        | some d1 =>
          match dateTimeAdd d1 0 nanoseconds with
          | none => .panic
          | some d2 => .ok d2

/-! ## Errors (src/lib.rs lines 61-83) -/

/-- Model of the `base64::DecodeError` variants (base64 crate contract; the
payloads carried by the Rust variants are dropped, no claim inspects them). -/
inductive Base64DecodeError where
  | invalidByte
  | invalidLength
  | invalidLastSymbol
  | invalidPadding
deriving DecidableEq

/-- The `SinditSenMLError` enum (src/lib.rs lines 61-83).  `InvalidJSON`
carries no payload here; the serde error payload is irrelevant to resolution. -/
inductive SinditSenMLError where
  | InvalidJSON
  | InvalidName
  | InvalidTime
  | MissingName (i : ℕ)
  | InvalidNameInRecord (i : ℕ)
  | InvalidTimeInRecord (i : ℕ)
  | DifferentBaseVersion
  | OnlyOneValuePerRecord (i : ℕ)
  | InvalidBase64Value (e : Base64DecodeError)
  | InvalidVersionNumber
deriving DecidableEq

/-! ## Name validator (src/validate_name.rs lines 32-37)

The regex is `^[A-Za-z0-9][A-Za-z0-9\-\:\.\/_]*$`: non-empty, leading ASCII
letter or digit, every character an ASCII letter, digit, or `- : . / _`. -/

/-- Character class `[A-Za-z0-9]` of the name regex. -/
def validNameStart (c : Char) : Bool :=
  (65 ≤ c.toNat && c.toNat ≤ 90) || (97 ≤ c.toNat && c.toNat ≤ 122) ||
    (48 ≤ c.toNat && c.toNat ≤ 57)

/-- Character class `[A-Za-z0-9\-\:\.\/_]` of the name regex. -/
def validNameChar (c : Char) : Bool :=
  validNameStart c || c == '-' || c == ':' || c == '.' || c == '/' || c == '_'

/-- Embedding of `validate_name`: full-string match of the regex above. -/
def validate_name (name : String) : Bool :=
  match name.data with
  | [] => false
  | c :: cs => validNameStart c && cs.all validNameChar

/-! ## Base64 URL-safe no-padding codec (base64 crate contract)

`general_purpose::URL_SAFE_NO_PAD`: alphabet `A-Z a-z 0-9 - _`, no padding
accepted on decode (`DecodePaddingMode::RequireNone`), non-zero trailing bits
rejected, and an input length of 1 mod 4 rejected. -/

/-- Value of one URL-safe base64 symbol. -/
def b64UrlDigit (c : Char) : Option ℕ :=
  if 65 ≤ c.toNat && c.toNat ≤ 90 then some (c.toNat - 65)
  else if 97 ≤ c.toNat && c.toNat ≤ 122 then some (c.toNat - 71)
  else if 48 ≤ c.toNat && c.toNat ≤ 57 then some (c.toNat + 4)
  else if c == '-' then some 62
  else if c == '_' then some 63
  else none

/-- URL-safe base64 symbol of a 6-bit value. -/
def b64UrlChar (n : ℕ) : Char :=
  if n < 26 then Char.ofNat (65 + n)
  else if n < 52 then Char.ofNat (97 + (n - 26))
  else if n < 62 then Char.ofNat (48 + (n - 52))
  else if n = 62 then '-'
  else '_'

/-- Chunked URL-safe no-padding base64 decoder. -/
def b64DecodeGo : List Char → Except Base64DecodeError (List ℕ)
  | [] => .ok []
  | [_] => .error .invalidLength
  | [a, b] =>
    match b64UrlDigit a, b64UrlDigit b with
    | some va, some vb =>
      if vb % 16 = 0 then .ok [va * 4 + vb / 16] else .error .invalidLastSymbol
    | _, _ => .error .invalidByte
  | [a, b, c] =>
    match b64UrlDigit a, b64UrlDigit b, b64UrlDigit c with
    | some va, some vb, some vc =>
      if vc % 4 = 0 then .ok [va * 4 + vb / 16, (vb % 16) * 16 + vc / 4]
      else .error .invalidLastSymbol
    | _, _, _ => .error .invalidByte
  | a :: b :: c :: d :: rest =>
    match b64UrlDigit a, b64UrlDigit b, b64UrlDigit c, b64UrlDigit d with
    | some va, some vb, some vc, some vd =>
      match b64DecodeGo rest with
      | .ok bs => .ok ([va * 4 + vb / 16, (vb % 16) * 16 + vc / 4, (vc % 4) * 64 + vd] ++ bs)
      | .error e => .error e
    | _, _, _, _ => .error .invalidByte

/-- Model of `URL_SAFE_NO_PAD.decode` over the text's characters. -/
def base64_decode (s : String) : Except Base64DecodeError (List ℕ) :=
  b64DecodeGo s.data

/-- Chunked URL-safe no-padding base64 encoder. -/
def b64EncodeGo : List ℕ → List Char
  | [] => []
  | [x] => [b64UrlChar (x / 4), b64UrlChar (x % 4 * 16)]
  | [x, y] =>
    [b64UrlChar (x / 4), b64UrlChar (x % 4 * 16 + y / 16), b64UrlChar (y % 16 * 4)]
  | x :: y :: z :: rest =>
    b64UrlChar (x / 4) :: b64UrlChar (x % 4 * 16 + y / 16) ::
      b64UrlChar (y % 16 * 4 + z / 64) :: b64UrlChar (z % 64) :: b64EncodeGo rest

/-- Model of `URL_SAFE_NO_PAD.encode`. -/
def base64_encode (bs : List ℕ) : String := ⟨b64EncodeGo bs⟩

/-! ## Data model (src/lib.rs) -/

/-- A structured JSON value, for the preserved unrecognized-field bag
(`serde_json::Value`). -/
inductive Json where
  | null
  | bool (b : Bool)
  | int (n : ℤ)
  | num (q : ℚ)
  | str (s : String)
  | arr (elems : List Json)
  | obj (fields : List (String × Json))

/-- The raw `SenMLRecord` (src/lib.rs lines 85-134); every field optional.
The `HashMap<String, serde_json::Value>` bag is carried as an association
list. -/
structure SenMLRecord where
  base_name : Option String := none
  base_time : Option F64 := none
  base_unit : Option String := none
  base_value : Option F64 := none
  base_sum : Option F64 := none
  base_version : Option ℕ := none
  name : Option String := none
  unit : Option String := none
  value : Option F64 := none
  string_value : Option String := none
  bool_value : Option Bool := none
  data_value : Option String := none
  sum : Option F64 := none
  time : Option F64 := none
  update_time : Option F64 := none
  extra_fields : Option (List (String × Json)) := none

/-- The `SenMLValueField` enum (src/lib.rs lines 146-151). -/
inductive SenMLValueField where
  | BooleanValue (b : Bool)
  | StringValue (s : String)
  | DataValue (bytes : List ℕ)
  | FloatingPoint (v : F64)

/-- The `SenMLResolvedRecord` struct (src/lib.rs lines 235-293). -/
structure SenMLResolvedRecord where
  name : String
  unit : Option String
  value : Option SenMLValueField
  sum : Option F64
  time : DateTime
  update_time : Option F64
  base_version : Option ℕ
  extra_fields : Option (List (String × Json))

/-- The six mutable base-context slots of `resolve_records`
(src/lib.rs lines 368-373). -/
structure Context where
  base_name : Option String
  base_time : Option F64
  base_unit : Option String
  base_value : Option F64
  base_sum : Option F64
  base_version : Option ℕ

/-- All-unset context at the start of a resolve call. -/
def initialContext : Context := ⟨none, none, none, none, none, none⟩

/-! ## Value kind resolver (src/lib.rs lines 313-362) -/

/-- Embedding of `resolve_value`: precedence numeric, string, boolean, binary,
with a pairwise multiple-kinds check, base-value addition for the numeric
kind, base64 decoding for the binary kind, and fall-back to the bare
base-value. -/
def resolve_value (record : SenMLRecord) (base_value : Option F64) (index : ℕ) :
    Except SinditSenMLError (Option SenMLValueField) :=
  match record.value with
  | some value =>
    if record.string_value.isSome || record.bool_value.isSome ||
        record.data_value.isSome then
      .error (.OnlyOneValuePerRecord index)
    else
      match base_value with
      | some bv => .ok (some (.FloatingPoint (F64.add bv value)))
      | none => .ok (some (.FloatingPoint value))
  | none =>
    match record.string_value with
    | some value =>
      if record.bool_value.isSome || record.data_value.isSome then
        .error (.OnlyOneValuePerRecord index)
      else .ok (some (.StringValue value))
    | none =>
      match record.bool_value with
      | some value =>
        if record.data_value.isSome then .error (.OnlyOneValuePerRecord index)
        else .ok (some (.BooleanValue value))
      | none =>
        match record.data_value with
        | some value =>
          match base64_decode value with
          | .ok bytes => .ok (some (.DataValue bytes))
          | .error e => .error (.InvalidBase64Value e)
        | none =>
          match base_value with
          | some bv => .ok (some (.FloatingPoint bv))
          | none => .ok none

/-! ## Record resolver (src/lib.rs lines 364-523) -/

/-- Outcome of one record's step: a resolved record plus the carried-forward
context, an error, or a panic escaping from chrono arithmetic. -/
inductive StepResult where
  | ok (res : SenMLResolvedRecord) (ctx : Context)
  | err (e : SinditSenMLError)
  | panic

/-- Base-field overwrite (src/lib.rs lines 379-397): each base slot present on
the record unconditionally overwrites the context slot; the version slot is
handled separately. -/
def updateBaseFields (ctx : Context) (r : SenMLRecord) : Context :=
  Context.mk
    (match r.base_name with | some s => some s | none => ctx.base_name)
    (match r.base_time with | some t => some t | none => ctx.base_time)
    (match r.base_unit with | some u => some u | none => ctx.base_unit)
    (match r.base_value with | some v => some v | none => ctx.base_value)
    (match r.base_sum with | some s => some s | none => ctx.base_sum)
    ctx.base_version

/-- Version reconciliation (src/lib.rs lines 399-420): a supplied version must
match an established one; zero is rejected on adoption; with nothing supplied
and nothing established, the default 10 is adopted. -/
def applyVersion (ctx : Context) (r : SenMLRecord) : Except SinditSenMLError Context :=
  match r.base_version with
  | some rbv =>
    match ctx.base_version with
    | some bv => if bv ≠ rbv then .error .DifferentBaseVersion else .ok ctx
    | none =>
      if rbv = 0 then .error .InvalidVersionNumber
      else .ok (Context.mk ctx.base_name ctx.base_time ctx.base_unit ctx.base_value
          ctx.base_sum (some rbv))
  | none =>
    match ctx.base_version with
    | some _ => .ok ctx
    | none => .ok (Context.mk ctx.base_name ctx.base_time ctx.base_unit ctx.base_value
        ctx.base_sum (some 10))

/-- Name resolution (src/lib.rs lines 422-431): base-name concatenated with
the own name, either alone if the other is absent, `none` if both absent. -/
def resolveName (ctx : Context) (r : SenMLRecord) : Option String :=
  match r.name with
  | some n =>
    match ctx.base_name with
    | some b => some (b ++ n)
    | none => some n
  | none => ctx.base_name

/-- Time composition (src/lib.rs lines 444-453): base-time plus own time,
each defaulting to 0. -/
def computedTime (ctx : Context) (r : SenMLRecord) : F64 :=
  match r.time with
  | some t =>
    match ctx.base_time with
    | some bt => F64.add bt t
    | none => t
  | none =>
    match ctx.base_time with
    | some bt => bt
    | none => .finite 0

/-- Sum composition (src/lib.rs lines 459-468): base-sum plus own sum when
both present, either alone, else absent. -/
def resolveSum (ctx : Context) (r : SenMLRecord) : Option F64 :=
  match r.sum with
  | some s =>
    match ctx.base_sum with
    | some bs => some (F64.add bs s)
    | none => some s
  | none => ctx.base_sum

/-- The per-record body after version reconciliation (src/lib.rs lines
422-520): name, unit, value, time, sum, the value-or-sum zero default, the
version-10 suppression and the empty-bag coercion, in source order. -/
def resolveAfterVersion (ctx2 : Context) (r : SenMLRecord) (index : ℕ)
    (now : DateTime) : StepResult :=
  match resolveName ctx2 r with
  | none => .err (.MissingName index)
  | some nm =>
    if validate_name nm = false then .err (.InvalidNameInRecord index)
    else
      let unit : Option String :=
        match r.unit with
        | some u => some u
        | none => ctx2.base_unit
      match resolve_value r ctx2.base_value index with
      | .error e => .err e
      | .ok value0 =>
        match convert_senml_time (computedTime ctx2 r) now with
        | .panic => .panic
        | .invalid => .err (.InvalidTimeInRecord index)
        | .ok datetime =>
          let sum := resolveSum ctx2 r
          let value : Option SenMLValueField :=
            match value0, sum with
            | none, none => some (.FloatingPoint (.finite 0))
            | _, _ => value0
          let record_base_version : Option ℕ :=
            match ctx2.base_version with
            | some bv => if bv = 10 then none else some bv
            | none => none
          let extra_fields : Option (List (String × Json)) :=
            match r.extra_fields with
            | some efs => if efs.isEmpty then none else some efs
            | none => none
          .ok (SenMLResolvedRecord.mk nm unit value sum datetime r.update_time
            record_base_version extra_fields) ctx2

/-- One iteration of the `resolve_records` map (src/lib.rs lines 378-521). -/
def resolveStep (ctx : Context) (r : SenMLRecord) (index : ℕ) (now : DateTime) :
    StepResult :=
  match applyVersion (updateBaseFields ctx r) r with
  | .error e => .err e
  | .ok ctx2 => resolveAfterVersion ctx2 r index now

/-- Outcome of a whole resolve call: the resolved sequence, the first error,
or a panic escaping from chrono arithmetic. -/
inductive ResolveOutcome where
  | ok (out : List SenMLResolvedRecord)
  | err (e : SinditSenMLError)
  | panic

/-- Left-to-right fold of `resolveStep`, threading the context and stopping at
the first error, as the `map`/`collect` over `Result` does in the source. -/
def resolveRecordsFrom (ctx : Context) (now : DateTime) (index : ℕ) :
    List SenMLRecord → ResolveOutcome
  | [] => .ok []
  | r :: rs =>
    match resolveStep ctx r index now with
    | .panic => .panic
    | .err e => .err e
    | .ok res ctx' =>
      match resolveRecordsFrom ctx' now (index + 1) rs with
      | .ok out => .ok (res :: out)
      | .err e => .err e
      | .panic => .panic

/-- Embedding of `resolve_records` (src/lib.rs lines 364-523). -/
def resolve_records (records : List SenMLRecord) (now : DateTime) : ResolveOutcome :=
  resolveRecordsFrom initialContext now 0 records

/-! ## Value-field serialization and numeric re-parsing
(src/lib.rs lines 187-210 and 542-552) -/

/-- Whether `value.fract() == 0.0` holds for the model: true exactly for
integral finite values (the fract of an infinity or NaN is NaN, which is not
equal to 0). -/
def F64.fractIsZero : F64 → Bool
  | .finite q => ratFract q = 0
  | _ => false

/-- Embedding of `SenMLValueField::serialize` (src/lib.rs lines 187-210): the
field name and the JSON value emitted for each kind; a floating-point value
with zero fractional part is emitted as the integer literal `*value as i64`
(`serde_json` serialises a non-finite f64 as null). -/
def serializeValueField : SenMLValueField → String × Json
  | .BooleanValue b => ("vb", .bool b)
  | .StringValue s => ("vs", .str s)
  | .FloatingPoint v =>
    if F64.fractIsZero v then ("v", .int (F64.asI64 v))
    else
      ("v", match v with
        | .finite q => .num q
        | _ => .null)
  | .DataValue bytes => ("vd", .str (base64_encode bytes))

/-- Model of the serde deserialization of a numeric `v` field back into the
raw record's `Option<f64>` (src/lib.rs lines 111-112, used by `parse_json`
lines 542-552): a JSON integer or float literal becomes a finite double.
Exact here; serde rounds integer literals beyond 2^53 to the nearest double,
which agrees on every integer a double can produce below 2^63. -/
def parseVField : Json → Option F64
  | .int n => some (.finite (qOfInt n))
  | .num q => some (.finite q)
  | _ => none

/-! ## Derived predicates and branch summaries used by the theorems -/

/-- Number of own value kinds present on a record (numeric, string, boolean,
binary). -/
def ownKindsCount (r : SenMLRecord) : ℕ :=
  (if r.value.isSome then 1 else 0) + (if r.string_value.isSome then 1 else 0) +
    (if r.bool_value.isSome then 1 else 0) + (if r.data_value.isSome then 1 else 0)

/-- Whether the version reconciliation of `resolveStep ctx r` succeeds: a
supplied version must equal an established one, and must be non-zero when it
is the first to be established. -/
def versionOk (ctx : Context) (r : SenMLRecord) : Bool :=
  match r.base_version, ctx.base_version with
  | some w, some v => v == w
  | some w, none => w != 0
  | none, _ => true

/-- The name the spec prescribes: base-name (if any) concatenated with the own
name (if any), `none` when both are absent. -/
def concatName : Option String → Option String → Option String
  | none, none => none
  | b, n => some (b.getD "" ++ n.getD "")

/-- The computed time values the converter refuses with `None`: non-finite
values, and finite values at or beyond `chronoMaxTs + 1` seconds (whose
absolute-timestamp branch falls outside the representable `DateTime` range). -/
def timeRejected : F64 → Bool
  | .finite q => if (8210266876800 : ℚ) ≤ q then true else false
  | _ => true

/-- The absolute branch of the converter (src/time.rs lines 54-55), which
never consults `now`. -/
def absoluteConvert (q : ℚ) : TimeResult :=
  match fromTimestamp (F64.asI64 (.finite q))
      ((if ratFract q = 0 then 0
        else F64.asI64 (.finite (qMul (ratFract q) billionQ))) % 4294967296) with
  | some d => .ok d
  | none => .invalid

/-- The relative branch of the converter (src/time.rs lines 58-59), anchored
at `now`. -/
def relativeConvert (q : ℚ) (now : DateTime) : TimeResult :=
  match durationSeconds (F64.asI64 (.finite q)) with
  | none => .panic
  | some ds =>
    match dateTimeAdd now ds 0 with
    | none => .panic
    | some d1 =>
      match dateTimeAdd d1 0 (if ratFract q = 0 then 0
          else F64.asI64 (.finite (qMul (ratFract q) billionQ))) with
      | none => .panic
      | some d2 => .ok d2

/-! ## Concrete inputs used by witnesses and counterexamples -/

/-- A fixed reference time (2023-11-14T22:13:20Z). -/
def now0 : DateTime := ⟨1700000000, 0⟩

/-- A minimal valid record. -/
def recA : SenMLRecord := { name := some "a" }

/-- Resolved output of `recA` from the initial context at `now0`. -/
def resA : SenMLResolvedRecord :=
  ⟨"a", none, some (.FloatingPoint (.finite 0)), none, now0, none, none, none⟩

/-- Context carried out of `recA`'s step: only the default version set. -/
def ctxA : Context := ⟨none, none, none, none, none, some 10⟩

/-- A record supplying base-version zero. -/
def recZeroVer : SenMLRecord := { base_version := some 0 }

/-- A record whose time is the finite value `10^18` seconds. -/
def recHugeTime : SenMLRecord := { name := some "a", time := some (.finite (qOfInt (10 ^ 18))) }

/-- A record whose time is the finite value `-10^18` seconds. -/
def recHugeNegTime : SenMLRecord :=
  { name := some "a", time := some (.finite (qOfInt (-(10 ^ 18)))) }

/-- A base-name plus own-name record. -/
def recAB : SenMLRecord := { base_name := some "abcd-", name := some "efgh" }

/-- Resolved output of `recAB` from the initial context at `now0`. -/
def resAB : SenMLResolvedRecord :=
  ⟨"abcd-efgh", none, some (.FloatingPoint (.finite 0)), none, now0, none, none, none⟩

/-- Context carried out of `recAB`'s step. -/
def ctxAB : Context := ⟨some "abcd-", none, none, none, none, some 10⟩

/-- A record with an empty-string base-name and no own name. -/
def recEmptyBase : SenMLRecord := { base_name := some "" }

/-- A record with an empty-string base-name and an own name. -/
def recEmptyBaseOwn : SenMLRecord := { base_name := some "", name := some "n1" }

/-- Resolved output of `recEmptyBaseOwn` from the initial context at `now0`. -/
def resN1 : SenMLResolvedRecord :=
  ⟨"n1", none, some (.FloatingPoint (.finite 0)), none, now0, none, none, none⟩

/-- Context carried out of `recEmptyBaseOwn`'s step. -/
def ctxN1 : Context := ⟨some "", none, none, none, none, some 10⟩

/-- A record with two own value kinds (numeric and string). -/
def recTwoKinds : SenMLRecord := { value := some (.finite 10), string_value := some "x" }

/-- A context with established version 5. -/
def ctxV5 : Context := ⟨none, none, none, none, none, some 5⟩

/-- A record supplying base-version 7. -/
def recV7 : SenMLRecord := { base_version := some 7 }

/-- A record supplying base-version 5, with a valid name. -/
def recV5 : SenMLRecord := { name := some "a", base_version := some 5 }

/-! ## Bridging lemmas for the kernel-evaluable rational helpers -/

theorem qAdd_eq (a b : ℚ) : qAdd a b = a + b := by
  conv_rhs => rw [← Rat.num_divInt_den a, ← Rat.num_divInt_den b]
  rw [Rat.divInt_add_divInt _ _ (Int.ofNat_ne_zero.mpr a.den_nz)
    (Int.ofNat_ne_zero.mpr b.den_nz), qAdd, Rat.mkRat_eq_divInt]
  norm_cast

theorem qSub_eq (a b : ℚ) : qSub a b = a - b := by
  conv_rhs => rw [← Rat.num_divInt_den a, ← Rat.num_divInt_den b]
  rw [Rat.divInt_sub_divInt _ _ (Int.ofNat_ne_zero.mpr a.den_nz)
    (Int.ofNat_ne_zero.mpr b.den_nz), qSub, Rat.mkRat_eq_divInt]
  norm_cast

theorem qMul_eq (a b : ℚ) : qMul a b = a * b := by
  conv_rhs => rw [← Rat.num_divInt_den a, ← Rat.num_divInt_den b]
  rw [Rat.divInt_mul_divInt', qMul, Rat.mkRat_eq_divInt]
  norm_cast

theorem qOfInt_eq (n : ℤ) : qOfInt n = (n : ℚ) := by
  rw [qOfInt, Rat.mkRat_one]

/-! ## Truncation lemmas -/

theorem ratTrunc_eq_floor {q : ℚ} (h : 0 ≤ q) : ratTrunc q = ⌊q⌋ := by
  rw [ratTrunc, Rat.floor_def]
  exact Int.tdiv_eq_ediv (Rat.num_nonneg.mpr h) (Int.ofNat_nonneg _)

theorem ratTrunc_le_self {q : ℚ} (h : 0 ≤ q) : (ratTrunc q : ℚ) ≤ q := by
  rw [ratTrunc_eq_floor h]
  exact Int.floor_le q

theorem self_lt_ratTrunc_add_one {q : ℚ} (h : 0 ≤ q) : q < ratTrunc q + 1 := by
  rw [ratTrunc_eq_floor h]
  exact Int.lt_floor_add_one q

theorem le_ratTrunc_iff {m : ℤ} {q : ℚ} (h : 0 ≤ q) : m ≤ ratTrunc q ↔ (m : ℚ) ≤ q := by
  rw [ratTrunc_eq_floor h]
  exact Int.le_floor

theorem ratTrunc_lt_iff {m : ℤ} {q : ℚ} (h : 0 ≤ q) : ratTrunc q < m ↔ q < (m : ℚ) := by
  rw [ratTrunc_eq_floor h]
  exact Int.floor_lt

theorem ratTrunc_le_iff {m : ℤ} {q : ℚ} (h : 0 ≤ q) : ratTrunc q ≤ m ↔ q < (m : ℚ) + 1 := by
  rw [ratTrunc_eq_floor h, Int.floor_le_iff]

theorem ratFract_eq (q : ℚ) : ratFract q = q - (ratTrunc q : ℚ) := by
  rw [ratFract, qSub_eq, qOfInt_eq]

theorem ratFract_nonneg {q : ℚ} (h : 0 ≤ q) : 0 ≤ ratFract q := by
  rw [ratFract_eq]
  have := ratTrunc_le_self h
  linarith

theorem ratFract_lt_one {q : ℚ} (h : 0 ≤ q) : ratFract q < 1 := by
  rw [ratFract_eq]
  have := self_lt_ratTrunc_add_one h
  push_cast at this ⊢
  linarith

/-! ## Structural lemmas about the resolver -/

theorem resolveName_eq_concat (c : Context) (r : SenMLRecord) :
    resolveName c r = concatName c.base_name r.name := by
  unfold resolveName concatName
  cases hn : r.name <;> cases hb : c.base_name <;> simp

theorem applyVersion_base_fields {c : Context} {r : SenMLRecord} {c2 : Context}
    (h : applyVersion c r = .ok c2) :
    c2.base_name = c.base_name ∧ c2.base_time = c.base_time ∧
      c2.base_unit = c.base_unit ∧ c2.base_value = c.base_value ∧
      c2.base_sum = c.base_sum := by
  unfold applyVersion at h
  split at h
  all_goals try split at h
  all_goals try split at h
  all_goals
    first
    | exact Except.noConfusion h
    | (injection h with h; subst h; exact ⟨rfl, rfl, rfl, rfl, rfl⟩)

theorem updateBaseFields_version (ctx : Context) (r : SenMLRecord) :
    (updateBaseFields ctx r).base_version = ctx.base_version := rfl

theorem versionOk_applyVersion {ctx : Context} {r : SenMLRecord}
    (h : versionOk ctx r = true) :
    ∃ c2, applyVersion (updateBaseFields ctx r) r = .ok c2 := by
  unfold versionOk at h
  unfold applyVersion
  rw [updateBaseFields_version]
  split at h
  next w v hw hv =>
    rw [hw, hv]
    simp only [beq_iff_eq] at h
    subst h
    simp
  next w hw hv =>
    rw [hw, hv]
    simp only [bne_iff_ne, ne_eq] at h
    simp [h]
  next hw =>
    rw [hw]
    cases hv : ctx.base_version <;> simp


theorem applyVersion_mismatch {c : Context} {r : SenMLRecord} {v w : ℕ}
    (hc : c.base_version = some v) (hr : r.base_version = some w) (hne : w ≠ v) :
    applyVersion c r = .error .DifferentBaseVersion := by
  unfold applyVersion
  simp only [hr, hc]
  rw [if_pos (Ne.symm hne)]

theorem applyVersion_supplied {c : Context} {r : SenMLRecord} {c2 : Context} {w : ℕ}
    (hr : r.base_version = some w) (h : applyVersion c r = .ok c2) :
    c2.base_version = some w := by
  unfold applyVersion at h
  simp only [hr] at h
  cases hc : c.base_version with
  | some v =>
    simp only [hc] at h
    by_cases hb : v = w
    · rw [if_neg (by simp [hb])] at h
      injection h with h
      subst h
      rw [hc, hb]
    · rw [if_pos hb] at h
      exact Except.noConfusion h
  | none =>
    simp only [hc] at h
    by_cases h0 : w = 0
    · rw [if_pos h0] at h
      exact Except.noConfusion h
    · rw [if_neg h0] at h
      injection h with h
      subst h
      rfl

theorem applyVersion_established {c : Context} {r : SenMLRecord} {c2 : Context} {v : ℕ}
    (hc : c.base_version = some v) (h : applyVersion c r = .ok c2) :
    c2.base_version = some v := by
  unfold applyVersion at h
  cases hr : r.base_version with
  | some w =>
    simp only [hr, hc] at h
    by_cases hb : v = w
    · rw [if_neg (by simp [hb])] at h
      injection h with h
      subst h
      exact hc
    · rw [if_pos hb] at h
      exact Except.noConfusion h
  | none =>
    simp only [hr, hc] at h
    injection h with h
    subst h
    exact hc

theorem applyVersion_default {c : Context} {r : SenMLRecord} {c2 : Context}
    (hr : r.base_version = none) (hc : c.base_version = none)
    (h : applyVersion c r = .ok c2) : c2.base_version = some 10 := by
  unfold applyVersion at h
  simp only [hr, hc] at h
  injection h with h
  subst h
  rfl

theorem applyVersion_some {c : Context} {r : SenMLRecord} {c2 : Context}
    (h : applyVersion c r = .ok c2) : ∃ u, c2.base_version = some u := by
  cases hr : r.base_version with
  | some w => exact ⟨w, applyVersion_supplied hr h⟩
  | none =>
    cases hc : c.base_version with
    | some v => exact ⟨v, applyVersion_established hc h⟩
    | none => exact ⟨10, applyVersion_default hr hc h⟩

theorem applyVersion_nonzero {c : Context} {r : SenMLRecord} {c2 : Context}
    (hcz : c.base_version ≠ some 0) (h : applyVersion c r = .ok c2) :
    c2.base_version ≠ some 0 := by
  cases hr : r.base_version with
  | none =>
    cases hc : c.base_version with
    | some v =>
      rw [applyVersion_established hc h]
      intro hx
      injection hx with hx
      exact hcz (by rw [hc, hx])
    | none =>
      rw [applyVersion_default hr hc h]
      simp
  | some w =>
    rw [applyVersion_supplied hr h]
    simp only [ne_eq, Option.some.injEq]
    unfold applyVersion at h
    simp only [hr] at h
    cases hc : c.base_version with
    | some v =>
      simp only [hc] at h
      by_cases hb : v = w
      · intro h0
        exact hcz (by rw [hc, hb, h0])
      · rw [if_pos hb] at h
        exact Except.noConfusion h
    | none =>
      simp only [hc] at h
      by_cases h0 : w = 0
      · rw [if_pos h0] at h
        exact Except.noConfusion h
      · exact h0

theorem afterVersion_missing {c2 : Context} {r : SenMLRecord} {i : ℕ} {now : DateTime}
    (hname : resolveName c2 r = none) :
    resolveAfterVersion c2 r i now = .err (.MissingName i) := by
  unfold resolveAfterVersion
  simp only [hname]

theorem afterVersion_invalid_name {c2 : Context} {r : SenMLRecord} {i : ℕ} {now : DateTime}
    {nm : String} (hname : resolveName c2 r = some nm) (hval : validate_name nm = false) :
    resolveAfterVersion c2 r i now = .err (.InvalidNameInRecord i) := by
  unfold resolveAfterVersion
  simp only [hname]
  rw [if_pos hval]

theorem afterVersion_ok_elim {c2 : Context} {r : SenMLRecord} {i : ℕ} {now : DateTime}
    {res : SenMLResolvedRecord} {ctx' : Context}
    (h : resolveAfterVersion c2 r i now = .ok res ctx') :
    ∃ nm value0 dt, resolveName c2 r = some nm ∧ validate_name nm = true ∧
      resolve_value r c2.base_value i = .ok value0 ∧
      convert_senml_time (computedTime c2 r) now = .ok dt ∧
      ctx' = c2 ∧
      res = SenMLResolvedRecord.mk nm
        (match r.unit with | some u => some u | none => c2.base_unit)
        (match value0, resolveSum c2 r with
          | none, none => some (.FloatingPoint (.finite 0))
          | _, _ => value0)
        (resolveSum c2 r) dt r.update_time
        (match c2.base_version with
          | some bv => if bv = 10 then none else some bv
          | none => none)
        (match r.extra_fields with
          | some efs => if efs.isEmpty then none else some efs
          | none => none) := by
  unfold resolveAfterVersion at h
  cases hname : resolveName c2 r with
  | none =>
    simp only [hname] at h
    exact StepResult.noConfusion h
  | some nm =>
    simp only [hname] at h
    by_cases hval : validate_name nm = false
    · rw [if_pos hval] at h
      exact StepResult.noConfusion h
    · rw [if_neg hval] at h
      rcases hrv : resolve_value r c2.base_value i with e | v0
      · rw [hrv] at h
        exact StepResult.noConfusion h
      · rw [hrv] at h
        rcases hct : convert_senml_time (computedTime c2 r) now with dt | _ | _ <;>
          rw [hct] at h
        · injection h with h1 h2
          exact ⟨nm, v0, dt, rfl, by simpa using hval, rfl, rfl, h2.symm, h1.symm⟩
        · exact StepResult.noConfusion h
        · exact StepResult.noConfusion h

theorem afterVersion_err_elim {c2 : Context} {r : SenMLRecord} {i : ℕ} {now : DateTime}
    {e : SinditSenMLError} (h : resolveAfterVersion c2 r i now = .err e) :
    (resolveName c2 r = none ∧ e = .MissingName i) ∨
    (∃ nm, resolveName c2 r = some nm ∧ validate_name nm = false ∧
      e = .InvalidNameInRecord i) ∨
    (∃ nm, resolveName c2 r = some nm ∧ validate_name nm = true ∧
      resolve_value r c2.base_value i = .error e) ∨
    (∃ nm v0, resolveName c2 r = some nm ∧ validate_name nm = true ∧
      resolve_value r c2.base_value i = .ok v0 ∧
      convert_senml_time (computedTime c2 r) now = .invalid ∧
      e = .InvalidTimeInRecord i) := by
  unfold resolveAfterVersion at h
  cases hname : resolveName c2 r with
  | none =>
    simp only [hname] at h
    injection h with h
    exact Or.inl ⟨rfl, h.symm⟩
  | some nm =>
    simp only [hname] at h
    by_cases hval : validate_name nm = false
    · rw [if_pos hval] at h
      injection h with h
      exact Or.inr (Or.inl ⟨nm, rfl, hval, h.symm⟩)
    · rw [if_neg hval] at h
      rcases hrv : resolve_value r c2.base_value i with e' | v0
      · rw [hrv] at h
        injection h with h
        subst h
        exact Or.inr (Or.inr (Or.inl ⟨nm, rfl, by simpa using hval, rfl⟩))
      · rw [hrv] at h
        rcases hct : convert_senml_time (computedTime c2 r) now with dt | _ | _ <;>
          rw [hct] at h
        · exact StepResult.noConfusion h
        · injection h with h
          exact Or.inr (Or.inr (Or.inr ⟨nm, v0, rfl, by simpa using hval, rfl, rfl, h.symm⟩))
        · exact StepResult.noConfusion h

theorem resolve_value_err_shape {r : SenMLRecord} {bv : Option F64} {i : ℕ}
    {e : SinditSenMLError} (h : resolve_value r bv i = .error e) :
    e = .OnlyOneValuePerRecord i ∨ ∃ b, e = .InvalidBase64Value b := by
  unfold resolve_value at h
  cases hv : r.value with
  | some v =>
    simp only [hv] at h
    by_cases hc : (r.string_value.isSome || r.bool_value.isSome || r.data_value.isSome) = true
    · rw [if_pos hc] at h
      injection h with h
      exact Or.inl h.symm
    · rw [if_neg hc] at h
      cases hb : bv <;> simp only [hb] at h <;> exact Except.noConfusion h
  | none =>
    simp only [hv] at h
    cases hs : r.string_value with
    | some s =>
      simp only [hs] at h
      by_cases hc : (r.bool_value.isSome || r.data_value.isSome) = true
      · rw [if_pos hc] at h
        injection h with h
        exact Or.inl h.symm
      · rw [if_neg hc] at h
        exact Except.noConfusion h
    | none =>
      simp only [hs] at h
      cases hbo : r.bool_value with
      | some b =>
        simp only [hbo] at h
        by_cases hc : r.data_value.isSome = true
        · rw [if_pos hc] at h
          injection h with h
          exact Or.inl h.symm
        · rw [if_neg hc] at h
          exact Except.noConfusion h
      | none =>
        simp only [hbo] at h
        cases hd : r.data_value with
        | some d =>
          simp only [hd] at h
          rcases hdec : base64_decode d with b64e | bytes <;> rw [hdec] at h
          · injection h with h
            exact Or.inr ⟨b64e, h.symm⟩
          · exact Except.noConfusion h
        | none =>
          simp only [hd] at h
          cases hb : bv <;> simp only [hb] at h <;> exact Except.noConfusion h

theorem resolve_value_all_none {r : SenMLRecord} {i : ℕ}
    (h1 : r.value = none) (h2 : r.string_value = none) (h3 : r.bool_value = none)
    (h4 : r.data_value = none) :
    resolve_value r none i = .ok none := by
  unfold resolve_value
  simp only [h1, h2, h3, h4]

theorem resolve_value_two_kinds {r : SenMLRecord} {bv : Option F64} {i : ℕ}
    (h : 2 ≤ ownKindsCount r) :
    resolve_value r bv i = .error (.OnlyOneValuePerRecord i) := by
  unfold ownKindsCount at h
  unfold resolve_value
  cases hv : r.value <;> cases hs : r.string_value <;> cases hbo : r.bool_value <;>
    cases hd : r.data_value <;> simp only [hv, hs, hbo, hd] at h ⊢ <;> simp_all

theorem step_ok_elim {ctx : Context} {r : SenMLRecord} {i : ℕ} {now : DateTime}
    {res : SenMLResolvedRecord} {ctx' : Context}
    (h : resolveStep ctx r i now = .ok res ctx') :
    applyVersion (updateBaseFields ctx r) r = .ok ctx' ∧
      resolveAfterVersion ctx' r i now = .ok res ctx' := by
  unfold resolveStep at h
  rcases hav : applyVersion (updateBaseFields ctx r) r with e | c2
  · rw [hav] at h
    exact StepResult.noConfusion h
  · rw [hav] at h
    obtain ⟨nm, v0, dt, -, -, -, -, hc2, -⟩ := afterVersion_ok_elim h
    subst hc2
    exact ⟨rfl, h⟩

theorem step_err_elim {ctx : Context} {r : SenMLRecord} {i : ℕ} {now : DateTime}
    {e : SinditSenMLError} (h : resolveStep ctx r i now = .err e) :
    applyVersion (updateBaseFields ctx r) r = .error e ∨
      ∃ c2, applyVersion (updateBaseFields ctx r) r = .ok c2 ∧
        resolveAfterVersion c2 r i now = .err e := by
  unfold resolveStep at h
  rcases hav : applyVersion (updateBaseFields ctx r) r with e' | c2
  · rw [hav] at h
    injection h with h
    subst h
    exact Or.inl rfl
  · rw [hav] at h
    exact Or.inr ⟨c2, rfl, h⟩

theorem step_version_supplied {ctx : Context} {r : SenMLRecord} {i : ℕ} {now : DateTime}
    {res : SenMLResolvedRecord} {ctx' : Context} {w : ℕ}
    (hr : r.base_version = some w) (h : resolveStep ctx r i now = .ok res ctx') :
    ctx'.base_version = some w :=
  applyVersion_supplied hr (step_ok_elim h).1

theorem step_version_persist {ctx : Context} {r : SenMLRecord} {i : ℕ} {now : DateTime}
    {res : SenMLResolvedRecord} {ctx' : Context} {v : ℕ}
    (hc : ctx.base_version = some v) (h : resolveStep ctx r i now = .ok res ctx') :
    ctx'.base_version = some v :=
  applyVersion_established (show (updateBaseFields ctx r).base_version = some v from hc)
    (step_ok_elim h).1

theorem step_version_default {ctx : Context} {r : SenMLRecord} {i : ℕ} {now : DateTime}
    {res : SenMLResolvedRecord} {ctx' : Context}
    (hr : r.base_version = none) (hc : ctx.base_version = none)
    (h : resolveStep ctx r i now = .ok res ctx') :
    ctx'.base_version = some 10 :=
  applyVersion_default hr (show (updateBaseFields ctx r).base_version = none from hc)
    (step_ok_elim h).1

theorem step_version_some {ctx : Context} {r : SenMLRecord} {i : ℕ} {now : DateTime}
    {res : SenMLResolvedRecord} {ctx' : Context}
    (h : resolveStep ctx r i now = .ok res ctx') :
    ∃ u, ctx'.base_version = some u :=
  applyVersion_some (step_ok_elim h).1

theorem step_version_nonzero {ctx : Context} {r : SenMLRecord} {i : ℕ} {now : DateTime}
    {res : SenMLResolvedRecord} {ctx' : Context}
    (hcz : ctx.base_version ≠ some 0) (h : resolveStep ctx r i now = .ok res ctx') :
    ctx'.base_version ≠ some 0 :=
  applyVersion_nonzero (show (updateBaseFields ctx r).base_version ≠ some 0 from hcz)
    (step_ok_elim h).1

theorem step_mismatch {ctx : Context} {r : SenMLRecord} (i : ℕ) (now : DateTime) {v w : ℕ}
    (hc : ctx.base_version = some v) (hr : r.base_version = some w) (hne : w ≠ v) :
    resolveStep ctx r i now = .err .DifferentBaseVersion := by
  unfold resolveStep
  rw [applyVersion_mismatch (show (updateBaseFields ctx r).base_version = some v from hc)
    hr hne]

theorem afterVersion_no_version_err {c2 : Context} {r : SenMLRecord} {i : ℕ}
    {now : DateTime} :
    resolveAfterVersion c2 r i now ≠ .err .DifferentBaseVersion ∧
      resolveAfterVersion c2 r i now ≠ .err .InvalidVersionNumber := by
  constructor <;> intro h <;>
    rcases afterVersion_err_elim h with ⟨-, h2⟩ | ⟨nm, -, -, h2⟩ | ⟨nm, -, -, h2⟩ |
      ⟨nm, v0, -, -, -, -, h2⟩ <;>
    first
    | exact SinditSenMLError.noConfusion h2
    | (rcases resolve_value_err_shape h2 with h3 | ⟨b, h3⟩ <;>
        exact SinditSenMLError.noConfusion h3)

theorem step_same_version_no_version_err {ctx : Context} {r : SenMLRecord} (i : ℕ)
    (now : DateTime) {v : ℕ} (hc : ctx.base_version = some v)
    (hr : r.base_version = some v) :
    resolveStep ctx r i now ≠ .err .DifferentBaseVersion ∧
      resolveStep ctx r i now ≠ .err .InvalidVersionNumber := by
  unfold resolveStep
  unfold applyVersion
  simp only [hr, show (updateBaseFields ctx r).base_version = some v from hc]
  rw [if_neg (by simp)]
  exact afterVersion_no_version_err

theorem step_zero_not_ok {ctx : Context} {r : SenMLRecord} {i : ℕ} {now : DateTime}
    (hr : r.base_version = some 0) (hcz : ctx.base_version ≠ some 0)
    {res : SenMLResolvedRecord} {ctx' : Context} :
    resolveStep ctx r i now ≠ .ok res ctx' := by
  intro h
  have hav := (step_ok_elim h).1
  unfold applyVersion at hav
  simp only [hr] at hav
  cases hc : (updateBaseFields ctx r).base_version with
  | some v =>
    simp only [hc] at hav
    by_cases hb : v = 0
    · exact hcz (by rw [show ctx.base_version = (updateBaseFields ctx r).base_version from rfl,
        hc, hb])
    · rw [if_pos hb] at hav
      exact Except.noConfusion hav
  | none =>
    simp only [hc] at hav
    simp at hav

theorem fold_version_anchor :
    ∀ (rs : List SenMLRecord) (ctx : Context) (now : DateTime) (idx : ℕ)
      (out : List SenMLResolvedRecord) (v : ℕ),
      resolveRecordsFrom ctx now idx rs = .ok out → ctx.base_version = some v →
      ∀ r ∈ rs, ∀ w, r.base_version = some w → w = v := by
  intro rs
  induction rs with
  | nil => intro ctx now idx out v h hc r hr; exact absurd hr (List.not_mem_nil r)
  | cons r0 rs ih =>
    intro ctx now idx out v h hc r hr w hw
    unfold resolveRecordsFrom at h
    cases hstep : resolveStep ctx r0 idx now with
    | panic =>
      simp only [hstep] at h
      exact ResolveOutcome.noConfusion h
    | err e =>
      simp only [hstep] at h
      exact ResolveOutcome.noConfusion h
    | ok res0 ctx1 =>
      simp only [hstep] at h
      cases hrec : resolveRecordsFrom ctx1 now (idx + 1) rs with
      | ok out' =>
        rcases List.mem_cons.mp hr with rfl | hmem
        · have h1 := step_version_persist hc hstep
          have h2 := step_version_supplied hw hstep
          rw [h1] at h2
          injection h2 with h2
          exact h2.symm
        · exact ih ctx1 now (idx + 1) out' v hrec (step_version_persist hc hstep) r hmem w hw
      | err e =>
        simp only [hrec] at h
        exact ResolveOutcome.noConfusion h
      | panic =>
        simp only [hrec] at h
        exact ResolveOutcome.noConfusion h

theorem fold_version_agree :
    ∀ (rs : List SenMLRecord) (ctx : Context) (now : DateTime) (idx : ℕ)
      (out : List SenMLResolvedRecord),
      resolveRecordsFrom ctx now idx rs = .ok out →
      ∀ r1 ∈ rs, ∀ r2 ∈ rs, ∀ v w, r1.base_version = some v →
        r2.base_version = some w → v = w := by
  intro rs
  induction rs with
  | nil => intro ctx now idx out h r1 hr1; exact absurd hr1 (List.not_mem_nil r1)
  | cons r0 rs ih =>
    intro ctx now idx out h r1 hr1 r2 hr2 v w hv hw
    unfold resolveRecordsFrom at h
    cases hstep : resolveStep ctx r0 idx now with
    | panic =>
      simp only [hstep] at h
      exact ResolveOutcome.noConfusion h
    | err e =>
      simp only [hstep] at h
      exact ResolveOutcome.noConfusion h
    | ok res0 ctx1 =>
      simp only [hstep] at h
      cases hrec : resolveRecordsFrom ctx1 now (idx + 1) rs with
      | ok out' =>
        rcases List.mem_cons.mp hr1 with rfl | hmem1 <;>
          rcases List.mem_cons.mp hr2 with h2eq | hmem2
        · subst h2eq
          exact Option.some.inj (hv.symm.trans hw)
        · have hc1 := step_version_supplied hv hstep
          exact (fold_version_anchor rs ctx1 now (idx + 1) out' v hrec hc1 r2 hmem2 w hw).symm
        · subst h2eq
          have hc1 := step_version_supplied hw hstep
          exact fold_version_anchor rs ctx1 now (idx + 1) out' w hrec hc1 r1 hmem1 v hv
        · exact ih ctx1 now (idx + 1) out' hrec r1 hmem1 r2 hmem2 v w hv hw
      | err e =>
        simp only [hrec] at h
        exact ResolveOutcome.noConfusion h
      | panic =>
        simp only [hrec] at h
        exact ResolveOutcome.noConfusion h

theorem fold_contains_zero_not_ok :
    ∀ (rs : List SenMLRecord) (ctx : Context) (now : DateTime) (idx : ℕ),
      ctx.base_version ≠ some 0 → (∃ r ∈ rs, r.base_version = some 0) →
      ∀ out, resolveRecordsFrom ctx now idx rs ≠ .ok out := by
  intro rs
  induction rs with
  | nil =>
    intro ctx now idx hcz hex out
    obtain ⟨r, hr, -⟩ := hex
    exact absurd hr (List.not_mem_nil r)
  | cons r0 rs ih =>
    intro ctx now idx hcz hex out h
    obtain ⟨r, hr, hr0⟩ := hex
    unfold resolveRecordsFrom at h
    cases hstep : resolveStep ctx r0 idx now with
    | panic =>
      simp only [hstep] at h
      exact ResolveOutcome.noConfusion h
    | err e =>
      simp only [hstep] at h
      exact ResolveOutcome.noConfusion h
    | ok res0 ctx1 =>
      simp only [hstep] at h
      rcases List.mem_cons.mp hr with rfl | hmem
      · exact step_zero_not_ok hr0 hcz hstep
      · cases hrec : resolveRecordsFrom ctx1 now (idx + 1) rs with
        | ok out' =>
          exact ih ctx1 now (idx + 1) (step_version_nonzero hcz hstep) ⟨r, hmem, hr0⟩ out' hrec
        | err e =>
          simp only [hrec] at h
          exact ResolveOutcome.noConfusion h
        | panic =>
          simp only [hrec] at h
          exact ResolveOutcome.noConfusion h

theorem first_record_zero_version {r : SenMLRecord} (rs : List SenMLRecord)
    (now : DateTime) (hr : r.base_version = some 0) :
    resolve_records (r :: rs) now = .err .InvalidVersionNumber := by
  unfold resolve_records resolveRecordsFrom resolveStep applyVersion
  simp [hr, show (updateBaseFields initialContext r).base_version = none from rfl]

theorem asI64_finite (q : ℚ) :
    F64.asI64 (.finite q) =
      if ratTrunc q < i64MinInt then i64MinInt
      else if i64MaxInt < ratTrunc q then i64MaxInt
      else ratTrunc q := rfl

theorem asI64_nonneg_small {x : ℚ} (h0 : 0 ≤ x) (h1 : x < 1000000000) :
    F64.asI64 (.finite x) = ratTrunc x ∧ 0 ≤ ratTrunc x ∧ ratTrunc x ≤ 999999999 := by
  have ht0 : 0 ≤ ratTrunc x := (le_ratTrunc_iff h0).mpr (by exact_mod_cast h0)
  have ht1 : ratTrunc x ≤ 999999999 := by
    rw [ratTrunc_le_iff h0]
    push_cast
    linarith
  refine ⟨?_, ht0, ht1⟩
  rw [asI64_finite]
  rw [if_neg (show ¬ ratTrunc x < i64MinInt by unfold i64MinInt; omega)]
  rw [if_neg (show ¬ i64MaxInt < ratTrunc x by unfold i64MaxInt; omega)]

theorem nanoseconds_bounds {q : ℚ} (hq0 : 0 ≤ q) :
    0 ≤ (if ratFract q = 0 then 0
        else F64.asI64 (.finite (qMul (ratFract q) billionQ))) ∧
      (if ratFract q = 0 then 0
        else F64.asI64 (.finite (qMul (ratFract q) billionQ))) ≤ 999999999 := by
  by_cases hz : ratFract q = 0
  · rw [if_pos hz]
    omega
  · rw [if_neg hz]
    have hfr0 : 0 ≤ ratFract q := ratFract_nonneg hq0
    have hfr1 : ratFract q < 1 := ratFract_lt_one hq0
    have hx0 : 0 ≤ qMul (ratFract q) billionQ := by
      rw [qMul_eq]
      have : (0:ℚ) ≤ 1000000000 := by norm_num
      calc (0:ℚ) = 0 * 1000000000 := by ring
      _ ≤ ratFract q * 1000000000 := by
        apply mul_le_mul_of_nonneg_right hfr0 this
      _ = ratFract q * billionQ := by rw [billionQ]
    have hx1 : qMul (ratFract q) billionQ < 1000000000 := by
      rw [qMul_eq, billionQ]
      nlinarith
    obtain ⟨heq, h1, h2⟩ := asI64_nonneg_small hx0 hx1
    rw [heq]
    exact ⟨h1, h2⟩

theorem convert_invalid_iff (x : F64) (now : DateTime) :
    convert_senml_time x now = .invalid ↔ timeRejected x = true := by
  cases x with
  | nan => simp [convert_senml_time, timeRejected]
  | posInf => simp [convert_senml_time, timeRejected]
  | negInf => simp [convert_senml_time, timeRejected]
  | finite q =>
    simp only [convert_senml_time, timeRejected]
    by_cases hT : TIME_THRESHOLD ≤ q
    · rw [if_pos hT]
      have hq0 : 0 ≤ q := le_trans (by norm_num [TIME_THRESHOLD]) hT
      have hTq : (268435456 : ℚ) ≤ q := by
        have := hT
        rw [TIME_THRESHOLD] at this
        exact this
      obtain ⟨hN0, hN1⟩ := nanoseconds_bounds hq0
      have hNid : (if ratFract q = 0 then 0
          else F64.asI64 (.finite (qMul (ratFract q) billionQ))) % 4294967296 =
          (if ratFract q = 0 then 0
          else F64.asI64 (.finite (qMul (ratFract q) billionQ))) :=
        Int.emod_eq_of_lt hN0 (by omega)
      rw [hNid]
      have hWlow : 268435456 ≤ ratTrunc q := by
        rw [le_ratTrunc_iff hq0]
        exact_mod_cast hTq
      by_cases hbig : i64MaxInt < ratTrunc q
      · have hW : F64.asI64 (.finite q) = i64MaxInt := by
          rw [asI64_finite]
          rw [if_neg (show ¬ ratTrunc q < i64MinInt by unfold i64MinInt; omega), if_pos hbig]
        rw [hW]
        have hft : fromTimestamp i64MaxInt (if ratFract q = 0 then 0
            else F64.asI64 (.finite (qMul (ratFract q) billionQ))) = none := by
          unfold fromTimestamp
          rw [if_neg]
          intro hcon
          have := hcon.2.1
          unfold i64MaxInt chronoMaxTs at this
          omega
        rw [hft]
        have hqbig : (8210266876800 : ℚ) ≤ q := by
          have h1 : (9223372036854775807 : ℤ) ≤ ratTrunc q := by
            unfold i64MaxInt at hbig
            omega
          have h2 := (le_ratTrunc_iff hq0).mp h1
          push_cast at h2
          linarith
        rw [if_pos hqbig]
        simp
      · have hW : F64.asI64 (.finite q) = ratTrunc q := by
          rw [asI64_finite]
          rw [if_neg (show ¬ ratTrunc q < i64MinInt by unfold i64MinInt; omega), if_neg hbig]
        rw [hW]
        unfold fromTimestamp
        by_cases hmax : ratTrunc q ≤ chronoMaxTs
        · rw [if_pos ⟨by unfold chronoMinTs; omega, hmax, hN0, by omega⟩]
          have hqsmall : ¬ ((8210266876800 : ℚ) ≤ q) := by
            have h1 := (ratTrunc_le_iff hq0).mp hmax
            unfold chronoMaxTs at h1
            push_cast at h1
            intro hcon
            linarith
          rw [if_neg hqsmall]
          simp
        · rw [if_neg (by intro hcon; exact hmax hcon.2.1)]
          have hqbig : (8210266876800 : ℚ) ≤ q := by
            have h1 : chronoMaxTs + 1 ≤ ratTrunc q := by omega
            have h2 := (le_ratTrunc_iff hq0).mp h1
            unfold chronoMaxTs at h2
            push_cast at h2
            linarith
          rw [if_pos hqbig]
          simp
    · rw [if_neg hT]
      have hqsmall : ¬ ((8210266876800 : ℚ) ≤ q) := by
        intro hcon
        apply hT
        rw [TIME_THRESHOLD]
        linarith
      rw [if_neg hqsmall]
      constructor
      · intro h
        exfalso
        cases hds : durationSeconds (F64.asI64 (.finite q)) with
        | none =>
          simp only [hds] at h
          exact TimeResult.noConfusion h
        | some ds =>
          simp only [hds] at h
          cases hd1 : dateTimeAdd now ds 0 with
          | none =>
            simp only [hd1] at h
            exact TimeResult.noConfusion h
          | some d1 =>
            simp only [hd1] at h
            cases hd2 : dateTimeAdd d1 0 (if ratFract q = 0 then 0
                else F64.asI64 (.finite (qMul (ratFract q) billionQ))) with
            | none =>
              simp only [hd2] at h
              exact TimeResult.noConfusion h
            | some d2 =>
              simp only [hd2] at h
              exact TimeResult.noConfusion h
      · intro h
        exact absurd h (by simp)

theorem afterVersion_time_err_iff {c2 : Context} {r : SenMLRecord} {i : ℕ} {now : DateTime}
    {nm : String} {v0 : Option SenMLValueField}
    (hname : resolveName c2 r = some nm) (hval : validate_name nm = true)
    (hrv : resolve_value r c2.base_value i = .ok v0) :
    (resolveAfterVersion c2 r i now = .err (.InvalidTimeInRecord i) ↔
      timeRejected (computedTime c2 r) = true) := by
  rw [← convert_invalid_iff (computedTime c2 r) now]
  unfold resolveAfterVersion
  simp only [hname]
  rw [if_neg (by simp [hval])]
  simp only [hrv]
  cases hct : convert_senml_time (computedTime c2 r) now with
  | ok d =>
    constructor
    · intro h
      exact StepResult.noConfusion h
    · intro h
      exact TimeResult.noConfusion h
  | invalid => simp
  | panic =>
    constructor
    · intro h
      exact StepResult.noConfusion h
    · intro h
      exact TimeResult.noConfusion h

theorem convert_finite_eq (q : ℚ) (now : DateTime) :
    convert_senml_time (.finite q) now =
      if TIME_THRESHOLD ≤ q then
        match fromTimestamp (F64.asI64 (.finite q))
            ((if ratFract q = 0 then 0
              else F64.asI64 (.finite (qMul (ratFract q) billionQ))) % 4294967296) with
        | some d => .ok d
        | none => .invalid
      else
        match durationSeconds (F64.asI64 (.finite q)) with
        | none => .panic
        | some ds =>
          match dateTimeAdd now ds 0 with
          | none => .panic
          | some d1 =>
            match dateTimeAdd d1 0 (if ratFract q = 0 then 0
                else F64.asI64 (.finite (qMul (ratFract q) billionQ))) with
            | none => .panic
            | some d2 => .ok d2 := rfl

theorem convert_absolute_of_threshold {q : ℚ} (now : DateTime) (h : TIME_THRESHOLD ≤ q) :
    convert_senml_time (.finite q) now = absoluteConvert q := by
  rw [convert_finite_eq, if_pos h]
  rfl

theorem convert_relative_of_below {q : ℚ} (now : DateTime) (h : q < TIME_THRESHOLD) :
    convert_senml_time (.finite q) now = relativeConvert q now := by
  rw [convert_finite_eq, if_neg (not_le.mpr h)]
  rfl

theorem dateTimeAdd_secs {s ds : ℤ} (h1 : chronoMinTs ≤ s + ds) (h2 : s + ds ≤ chronoMaxTs) :
    dateTimeAdd ⟨s, 0⟩ ds 0 = some ⟨s + ds, 0⟩ := by
  unfold dateTimeAdd
  have hdiv : ((s + ds) * 1000000000 + 0 + 0) / 1000000000 = s + ds := by omega
  have hmod : ((s + ds) * 1000000000 + 0 + 0) % 1000000000 = 0 := by omega
  rw [hdiv, hmod]
  rw [if_pos ⟨h1, h2⟩]

theorem dateTimeAdd_nanos {s n : ℤ} (hn0 : 0 ≤ n) (hn1 : n < 1000000000)
    (h1 : chronoMinTs ≤ s) (h2 : s ≤ chronoMaxTs) :
    dateTimeAdd ⟨s, 0⟩ 0 n = some ⟨s, n⟩ := by
  unfold dateTimeAdd
  have hdiv : ((s + 0) * 1000000000 + 0 + n) / 1000000000 = s := by omega
  have hmod : ((s + 0) * 1000000000 + 0 + n) % 1000000000 = n := by omega
  rw [hdiv, hmod]
  rw [if_pos ⟨h1, h2⟩]
theorem applyVersion_err_shape {c : Context} {r : SenMLRecord} {e : SinditSenMLError}
    (h : applyVersion c r = .error e) :
    e = .DifferentBaseVersion ∨ e = .InvalidVersionNumber := by
  unfold applyVersion at h
  split at h
  all_goals try split at h
  all_goals try split at h
  all_goals
    first
    | exact Except.noConfusion h
    | (injection h with h; exact Or.inl h.symm)
    | (injection h with h; exact Or.inr h.symm)

theorem concatName_none_iff (b n : Option String) :
    concatName b n = none ↔ b = none ∧ n = none := by
  cases b <;> cases n <;> simp [concatName]

theorem updateBaseFields_value {ctx : Context} {r : SenMLRecord}
    (hr : r.base_value = none) :
    (updateBaseFields ctx r).base_value = ctx.base_value := by
  show (match r.base_value with | some v => some v | none => ctx.base_value) = ctx.base_value
  rw [hr]

theorem updateBaseFields_sum {ctx : Context} {r : SenMLRecord}
    (hr : r.base_sum = none) :
    (updateBaseFields ctx r).base_sum = ctx.base_sum := by
  show (match r.base_sum with | some v => some v | none => ctx.base_sum) = ctx.base_sum
  rw [hr]
theorem name_concatenation_step (ctx : Context) (r : SenMLRecord) (i : ℕ) (now : DateTime)
    (hv : versionOk ctx r = true) :
    ((updateBaseFields ctx r).base_name = none → r.name = none →
      resolveStep ctx r i now = .err (.MissingName i)) ∧
    (∀ nm, concatName (updateBaseFields ctx r).base_name r.name = some nm →
      (validate_name nm = false → resolveStep ctx r i now = .err (.InvalidNameInRecord i)) ∧
      (∀ res ctx', resolveStep ctx r i now = .ok res ctx' → res.name = nm)) := by
  obtain ⟨c2, hav⟩ := versionOk_applyVersion hv
  have hbn : c2.base_name = (updateBaseFields ctx r).base_name :=
    (applyVersion_base_fields hav).1
  have hstep : resolveStep ctx r i now = resolveAfterVersion c2 r i now := by
    unfold resolveStep
    rw [hav]
  constructor
  · intro hb hn
    rw [hstep]
    apply afterVersion_missing
    rw [resolveName_eq_concat, hbn, hb, hn]
    rfl
  · intro nm hnm
    have hname : resolveName c2 r = some nm := by
      rw [resolveName_eq_concat, hbn]
      exact hnm
    constructor
    · intro hvalf
      rw [hstep]
      exact afterVersion_invalid_name hname hvalf
    · intro res ctx' hok
      rw [hstep] at hok
      obtain ⟨nm', v0, dt, hname', -, -, -, -, hres⟩ := afterVersion_ok_elim hok
      rw [hname] at hname'
      injection hname' with he
      rw [hres, he]

theorem default_value_step (ctx : Context) (r : SenMLRecord) (i : ℕ) (now : DateTime)
    (res : SenMLResolvedRecord) (ctx' : Context)
    (hok : resolveStep ctx r i now = .ok res ctx')
    (hnov : r.value = none) (hnos : r.string_value = none) (hnob : r.bool_value = none)
    (hnod : r.data_value = none) (hnobv : r.base_value = none) (hcbv : ctx.base_value = none)
    (hnosum : r.sum = none) (hnobs : r.base_sum = none) (hcbs : ctx.base_sum = none) :
    res.value = some (.FloatingPoint (.finite 0)) ∧ res.sum = none := by
  obtain ⟨hav, hafter⟩ := step_ok_elim hok
  obtain ⟨nm, v0, dt, hname, hvn, hrv, hct, -, hres⟩ := afterVersion_ok_elim hafter
  have hbv' : ctx'.base_value = none := by
    rw [(applyVersion_base_fields hav).2.2.2.1, updateBaseFields_value hnobv]
    exact hcbv
  have hbs' : ctx'.base_sum = none := by
    rw [(applyVersion_base_fields hav).2.2.2.2, updateBaseFields_sum hnobs]
    exact hcbs
  have hv0 : v0 = none := by
    rw [hbv', resolve_value_all_none hnov hnos hnob hnod] at hrv
    exact (Except.ok.inj hrv).symm
  have hsum : resolveSum ctx' r = none := by
    unfold resolveSum
    simp only [hnosum, hbs']
  subst hv0
  rw [hres]
  constructor
  · show (match (none : Option SenMLValueField), resolveSum ctx' r with
      | none, none => some (SenMLValueField.FloatingPoint (.finite 0))
      | _, _ => (none : Option SenMLValueField)) = some (.FloatingPoint (.finite 0))
    rw [hsum]
  · exact hsum

theorem empty_base_name_step (ctx : Context) (r : SenMLRecord) (i : ℕ) (now : DateTime)
    (hv : versionOk ctx r = true)
    (hbn0 : (updateBaseFields ctx r).base_name = some "") :
    (r.name = none → resolveStep ctx r i now = .err (.InvalidNameInRecord i)) ∧
    (∀ n res ctx', r.name = some n → resolveStep ctx r i now = .ok res ctx' →
      res.name = n) := by
  obtain ⟨c2, hav⟩ := versionOk_applyVersion hv
  have hbn : c2.base_name = some "" := (applyVersion_base_fields hav).1.trans hbn0
  have hstep : resolveStep ctx r i now = resolveAfterVersion c2 r i now := by
    unfold resolveStep
    rw [hav]
  constructor
  · intro hn
    rw [hstep]
    have hname : resolveName c2 r = some "" := by
      rw [resolveName_eq_concat, hbn, hn]
      rfl
    exact afterVersion_invalid_name hname rfl
  · intro n res ctx' hn hok
    rw [hstep] at hok
    obtain ⟨nm', v0, dt, hname', -, -, -, -, hres⟩ := afterVersion_ok_elim hok
    rw [resolveName_eq_concat, hbn, hn] at hname'
    have : some n = some nm' := by
      rw [← hname']
      rfl
    injection this with he
    rw [hres, ← he]

theorem missing_name_only_when_both_absent (ctx : Context) (r : SenMLRecord) (i : ℕ)
    (now : DateTime) (h : resolveStep ctx r i now = .err (.MissingName i)) :
    (updateBaseFields ctx r).base_name = none ∧ r.name = none := by
  rcases step_err_elim h with hav | ⟨c2, hav, hae⟩
  · rcases applyVersion_err_shape hav with he | he <;> exact SinditSenMLError.noConfusion he
  · rcases afterVersion_err_elim hae with ⟨hnone, -⟩ | ⟨nm, -, -, he⟩ | ⟨nm, -, -, he⟩ |
      ⟨nm, v0, -, -, -, -, he⟩
    · rw [resolveName_eq_concat, (applyVersion_base_fields hav).1] at hnone
      exact (concatName_none_iff _ _).mp hnone
    · exact SinditSenMLError.noConfusion he
    · rcases resolve_value_err_shape he with h3 | ⟨b, h3⟩ <;>
        exact SinditSenMLError.noConfusion h3
    · exact SinditSenMLError.noConfusion he
theorem convert_below_threshold_concrete (now : DateTime) (hn : now.nanos = 0)
    (h0 : 0 ≤ now.secs) (h1 : now.secs ≤ 8000000000000) :
    convert_senml_time (.finite (mkRat 268435455999 1000)) now =
      .ok ⟨now.secs + 268435455, 999000000⟩ := by
  obtain ⟨s, n⟩ := now
  have hn' : n = 0 := hn
  subst hn'
  have h0' : (0:ℤ) ≤ s := h0
  have h1' : s ≤ 8000000000000 := h1
  rw [convert_relative_of_below _ (by decide)]
  unfold relativeConvert
  simp only [show F64.asI64 (.finite (mkRat 268435455999 1000)) = 268435455 from by decide]
  simp only [show durationSeconds 268435455 = some 268435455 from by decide]
  simp only [show (if ratFract (mkRat 268435455999 1000) = 0 then 0
      else F64.asI64 (.finite (qMul (ratFract (mkRat 268435455999 1000)) billionQ)))
      = 999000000 from by decide]
  simp only [dateTimeAdd_secs (show chronoMinTs ≤ s + 268435455 by unfold chronoMinTs; omega)
    (show s + 268435455 ≤ chronoMaxTs by unfold chronoMaxTs; omega)]
  simp only [dateTimeAdd_nanos (show (0:ℤ) ≤ 999000000 by omega)
    (show (999000000:ℤ) < 1000000000 by omega)
    (show chronoMinTs ≤ s + 268435455 by unfold chronoMinTs; omega)
    (show s + 268435455 ≤ chronoMaxTs by unfold chronoMaxTs; omega)]

/-! ## Claim theorems -/

/-- C1 (amended): `convert_senml_time` returns none exactly for non-finite
input or finite input at or beyond 8210266876800 seconds (the absolute branch
beyond the representable DateTime range); and a record that passes the
version, name and value checks fails with the invalid-time error at its index
exactly when its computed time value is so rejected.  (For hugely negative
finite offsets the relative branch panics rather than returning none, so such
inputs do not surface as the invalid-time error.) -/
theorem invalid_time_characterization :
    (∀ (x : F64) (now : DateTime),
      convert_senml_time x now = .invalid ↔ timeRejected x = true) ∧
    (∀ (c2 : Context) (r : SenMLRecord) (i : ℕ) (now : DateTime) (nm : String)
      (v0 : Option SenMLValueField),
      resolveName c2 r = some nm → validate_name nm = true →
      resolve_value r c2.base_value i = .ok v0 →
      (resolveAfterVersion c2 r i now = .err (.InvalidTimeInRecord i) ↔
        timeRejected (computedTime c2 r) = true)) :=
  ⟨convert_invalid_iff,
   fun _ _ _ _ _ _ h1 h2 h3 => afterVersion_time_err_iff h1 h2 h3⟩

/-- C1 counterexample: the finite time value `10^18` seconds is rejected with
the invalid-time error, refuting "fails iff the computed time value is
non-finite". -/
theorem invalid_time_finite_counterexample :
    F64.isFinite (.finite (qOfInt (10 ^ 18))) = true ∧
    convert_senml_time (.finite (qOfInt (10 ^ 18))) now0 = .invalid ∧
    resolve_records [recHugeTime] now0 = .err (.InvalidTimeInRecord 0) :=
  ⟨rfl, by decide, rfl⟩

/-- C1 witness: the characterization applied at the finite input `10^18` and
at the record carrying it. -/
theorem invalid_time_characterization_witness :
    (convert_senml_time (.finite (qOfInt (10 ^ 18))) now0 = .invalid ↔
      timeRejected (.finite (qOfInt (10 ^ 18))) = true) ∧
    (resolveAfterVersion ctxA recHugeTime 0 now0 = .err (.InvalidTimeInRecord 0) ↔
      timeRejected (computedTime ctxA recHugeTime) = true) :=
  ⟨invalid_time_characterization.1 _ now0,
   invalid_time_characterization.2 ctxA recHugeTime 0 now0 "a" none rfl rfl rfl⟩

/-- C2: a finite but hugely negative relative time offset makes the resolve
call panic inside chrono arithmetic instead of returning a tagged error —
the code crashes where its own documentation promises an error. -/
theorem resolve_panics_on_large_negative_offset :
    F64.isFinite (.finite (qOfInt (-(10 ^ 18)))) = true ∧
    resolve_records [recHugeNegTime] now0 = .panic :=
  ⟨rfl, rfl⟩

/-- C3: the resolved name is the context base-name concatenated with the own
name in that order with no separator; both absent is the missing-name error
at that index; a grammar failure of the concatenation is the distinct
invalid-name error at that index. -/
theorem name_concatenation :
    ∀ (ctx : Context) (r : SenMLRecord) (i : ℕ) (now : DateTime),
      versionOk ctx r = true →
      ((updateBaseFields ctx r).base_name = none → r.name = none →
        resolveStep ctx r i now = .err (.MissingName i)) ∧
      (∀ nm, concatName (updateBaseFields ctx r).base_name r.name = some nm →
        (validate_name nm = false → resolveStep ctx r i now = .err (.InvalidNameInRecord i)) ∧
        (∀ res ctx', resolveStep ctx r i now = .ok res ctx' → res.name = nm)) :=
  name_concatenation_step

/-- C3 witness: base-name "abcd-" and own name "efgh" resolve to
"abcd-efgh". -/
theorem name_concatenation_witness :
    resolveStep initialContext recAB 0 now0 = .ok resAB ctxAB ∧
    resAB.name = "abcd-efgh" :=
  ⟨rfl, ((name_concatenation initialContext recAB 0 now0 rfl).2 "abcd-efgh" rfl).2
    resAB ctxAB rfl⟩

/-- C4: a record carrying two or more own value kinds always fails with the
only-one-value-kind error at its index, whatever the pair. -/
theorem multiple_value_kinds_error :
    ∀ (r : SenMLRecord) (bv : Option F64) (i : ℕ), 2 ≤ ownKindsCount r →
      resolve_value r bv i = .error (.OnlyOneValuePerRecord i) :=
  fun _ _ _ h => resolve_value_two_kinds h

/-- C4 witness: numeric plus string value. -/
theorem multiple_value_kinds_error_witness :
    2 ≤ ownKindsCount recTwoKinds ∧
    resolve_value recTwoKinds none 0 = .error (.OnlyOneValuePerRecord 0) :=
  ⟨by decide, multiple_value_kinds_error recTwoKinds none 0 (by decide)⟩

/-- C5: when value resolution and sum resolution both come out absent (no own
kind, no base-value, no own sum, no base-sum), the resolved record carries the
float value 0.0 and its sum stays absent. -/
theorem missing_value_sum_defaults_zero :
    ∀ (ctx : Context) (r : SenMLRecord) (i : ℕ) (now : DateTime)
      (res : SenMLResolvedRecord) (ctx' : Context),
      resolveStep ctx r i now = .ok res ctx' →
      r.value = none → r.string_value = none → r.bool_value = none →
      r.data_value = none → r.base_value = none → ctx.base_value = none →
      r.sum = none → r.base_sum = none → ctx.base_sum = none →
      res.value = some (.FloatingPoint (.finite 0)) ∧ res.sum = none :=
  default_value_step

/-- C5 witness: a bare named record resolves to value 0.0 and no sum. -/
theorem missing_value_sum_defaults_zero_witness :
    resolveStep initialContext recA 0 now0 = .ok resA ctxA ∧
    resA.value = some (.FloatingPoint (.finite 0)) ∧ resA.sum = none :=
  ⟨rfl, (missing_value_sum_defaults_zero initialContext recA 0 now0 resA ctxA rfl
      rfl rfl rfl rfl rfl rfl rfl rfl rfl).1,
    (missing_value_sum_defaults_zero initialContext recA 0 now0 resA ctxA rfl
      rfl rfl rfl rfl rfl rfl rfl rfl rfl).2⟩

/-- C6: at or above the `2^28` threshold the converter takes the absolute
branch, which never consults now; below it, the relative branch anchored at
now; at exactly `268435456.0` the result is the absolute epoch timestamp for
every now, and at `268435455.999` the result tracks the supplied now with the
truncated whole seconds and nanoseconds. -/
theorem time_threshold_split :
    (∀ (q : ℚ) (now : DateTime), TIME_THRESHOLD ≤ q →
      convert_senml_time (.finite q) now = absoluteConvert q) ∧
    (∀ (q : ℚ) (now now' : DateTime), TIME_THRESHOLD ≤ q →
      convert_senml_time (.finite q) now = convert_senml_time (.finite q) now') ∧
    (∀ (q : ℚ) (now : DateTime), q < TIME_THRESHOLD →
      convert_senml_time (.finite q) now = relativeConvert q now) ∧
    (∀ now : DateTime, convert_senml_time (.finite 268435456) now = .ok ⟨268435456, 0⟩) ∧
    (∀ now : DateTime, now.nanos = 0 → 0 ≤ now.secs → now.secs ≤ 8000000000000 →
      convert_senml_time (.finite (mkRat 268435455999 1000)) now =
        .ok ⟨now.secs + 268435455, 999000000⟩) := by
  refine ⟨fun q now h => convert_absolute_of_threshold now h,
    fun q now now' h => ?_,
    fun q now h => convert_relative_of_below now h,
    fun now => ?_,
    fun now hn h0 h1 => convert_below_threshold_concrete now hn h0 h1⟩
  · rw [convert_absolute_of_threshold now h, convert_absolute_of_threshold now' h]
  · rw [convert_absolute_of_threshold now (le_of_eq (by rw [TIME_THRESHOLD]))]
    decide

/-- C6 witness: the threshold split applied at `268435456.0` and
`268435455.999` with the fixed reference time. -/
theorem time_threshold_split_witness :
    convert_senml_time (.finite 268435456) now0 = absoluteConvert 268435456 ∧
    convert_senml_time (.finite (mkRat 268435455999 1000)) now0 =
      relativeConvert (mkRat 268435455999 1000) now0 ∧
    convert_senml_time (.finite (mkRat 268435455999 1000)) now0 =
      .ok ⟨1700000000 + 268435455, 999000000⟩ :=
  ⟨time_threshold_split.1 268435456 now0 (le_of_eq (by rw [TIME_THRESHOLD])),
   time_threshold_split.2.2.1 (mkRat 268435455999 1000) now0 (by decide),
   time_threshold_split.2.2.2.2 now0 rfl (by decide) (by decide)⟩

/-- C7: an established context version (explicit or the implicit default 10)
is pinned: a later record supplying a different version fails with the
version-mismatch error, supplying the same version produces no version error,
a successful step always carries some version forward unchanged, and in any
successfully resolved sequence all supplied base-versions agree. -/
theorem version_pinning :
    (∀ (ctx : Context) (r : SenMLRecord) (i : ℕ) (now : DateTime) (v w : ℕ),
      ctx.base_version = some v → r.base_version = some w → w ≠ v →
      resolveStep ctx r i now = .err .DifferentBaseVersion) ∧
    (∀ (ctx : Context) (r : SenMLRecord) (i : ℕ) (now : DateTime) (v : ℕ),
      ctx.base_version = some v → r.base_version = some v →
      resolveStep ctx r i now ≠ .err .DifferentBaseVersion ∧
        resolveStep ctx r i now ≠ .err .InvalidVersionNumber) ∧
    (∀ (ctx : Context) (r : SenMLRecord) (i : ℕ) (now : DateTime)
      (res : SenMLResolvedRecord) (ctx' : Context),
      resolveStep ctx r i now = .ok res ctx' → ∃ u, ctx'.base_version = some u) ∧
    (∀ (ctx : Context) (r : SenMLRecord) (i : ℕ) (now : DateTime)
      (res : SenMLResolvedRecord) (ctx' : Context) (v : ℕ),
      resolveStep ctx r i now = .ok res ctx' → ctx.base_version = some v →
      ctx'.base_version = some v) ∧
    (∀ (ctx : Context) (r : SenMLRecord) (i : ℕ) (now : DateTime)
      (res : SenMLResolvedRecord) (ctx' : Context),
      resolveStep ctx r i now = .ok res ctx' → r.base_version = none →
      ctx.base_version = none → ctx'.base_version = some 10) ∧
    (∀ (rs : List SenMLRecord) (now : DateTime) (out : List SenMLResolvedRecord),
      resolve_records rs now = .ok out →
      ∀ r1 ∈ rs, ∀ r2 ∈ rs, ∀ v w, r1.base_version = some v →
        r2.base_version = some w → v = w) :=
  ⟨fun _ _ i now _ _ hc hr hne => step_mismatch i now hc hr hne,
   fun _ _ i now _ hc hr => step_same_version_no_version_err i now hc hr,
   fun _ _ _ _ _ _ h => step_version_some h,
   fun _ _ _ _ _ _ _ h hc => step_version_persist hc h,
   fun _ _ _ _ _ _ h hr hc => step_version_default hr hc h,
   fun rs now out h => fold_version_agree rs initialContext now 0 out h⟩

/-- C7 witness: version 7 against established version 5 mismatches; version 5
against version 5 yields no version error; the default 10 is adopted. -/
theorem version_pinning_witness :
    resolveStep ctxV5 recV7 3 now0 = .err .DifferentBaseVersion ∧
    (resolveStep ctxV5 recV5 0 now0 ≠ .err .DifferentBaseVersion ∧
      resolveStep ctxV5 recV5 0 now0 ≠ .err .InvalidVersionNumber) ∧
    ctxA.base_version = some 10 :=
  ⟨version_pinning.1 ctxV5 recV7 3 now0 5 7 rfl rfl (by decide),
   version_pinning.2.1 ctxV5 recV5 0 now0 5 rfl rfl,
   version_pinning.2.2.2.2.1 initialContext recA 0 now0 resA ctxA rfl rfl rfl⟩

/-- C8 counterexample: a sequence whose second record supplies base-version
zero fails with the version-mismatch error, not the invalid-version-number
error, because the first record has already established the default 10. -/
theorem zero_version_error_kind_counterexample :
    recZeroVer.base_version = some 0 ∧
    resolve_records [recA, recZeroVer] now0 = .err .DifferentBaseVersion :=
  ⟨rfl, rfl⟩

/-- C8 (amended): a sequence containing a zero base-version never resolves;
when the zero-supplying record is first, the error is invalid-version-number;
a zero supplied after any processed record meets an established version
(the default 10 at the latest) and surfaces as version-mismatch instead. -/
theorem zero_version_never_resolves :
    (∀ (rs : List SenMLRecord) (now : DateTime) (out : List SenMLResolvedRecord),
      (∃ r ∈ rs, r.base_version = some 0) → resolve_records rs now ≠ .ok out) ∧
    (∀ (r : SenMLRecord) (rs : List SenMLRecord) (now : DateTime),
      r.base_version = some 0 →
      resolve_records (r :: rs) now = .err .InvalidVersionNumber) :=
  ⟨fun rs now out hex =>
    fold_contains_zero_not_ok rs initialContext now 0
      (fun hc => Option.noConfusion hc) hex out,
   fun _ rs now hr => first_record_zero_version rs now hr⟩

/-- C8 witness: a single zero-version record neither resolves nor produces
any error other than invalid-version-number. -/
theorem zero_version_never_resolves_witness :
    resolve_records [recZeroVer] now0 ≠ .ok [] ∧
    resolve_records [recZeroVer] now0 = .err .InvalidVersionNumber :=
  ⟨zero_version_never_resolves.1 [recZeroVer] now0 []
      ⟨recZeroVer, List.mem_singleton.mpr rfl, rfl⟩,
   zero_version_never_resolves.2 recZeroVer [] now0 rfl⟩

/-- C9 counterexample: the integral float value `10^30` serializes through
the saturating `as i64` cast as the integer literal 9223372036854775807, and
re-parsing that literal yields a different numeric value. -/
theorem integer_roundtrip_counterexample :
    ratFract (qOfInt (10 ^ 30)) = 0 ∧
    serializeValueField (.FloatingPoint (.finite (qOfInt (10 ^ 30)))) =
      ("v", .int 9223372036854775807) ∧
    parseVField (.int 9223372036854775807) =
      some (.finite (qOfInt 9223372036854775807)) ∧
    ¬ (qOfInt 9223372036854775807 = qOfInt (10 ^ 30)) :=
  ⟨by decide, rfl, rfl, by decide⟩

/-- C9 (amended): an integral float value within the i64 range serializes as
exactly its integer literal, and re-parsing that literal restores the value. -/
theorem integer_roundtrip_i64_range :
    ∀ q : ℚ, ratFract q = 0 → i64MinInt ≤ ratTrunc q → ratTrunc q ≤ i64MaxInt →
      serializeValueField (.FloatingPoint (.finite q)) = ("v", .int (ratTrunc q)) ∧
      parseVField (.int (ratTrunc q)) = some (.finite q) := by
  intro q hf hlo hhi
  have hq : qOfInt (ratTrunc q) = q := by
    rw [qOfInt_eq]
    have h1 := ratFract_eq q
    rw [hf] at h1
    linarith [h1.symm]
  constructor
  · simp only [serializeValueField]
    rw [if_pos (show F64.fractIsZero (.finite q) = true by simp [F64.fractIsZero, hf])]
    rw [asI64_finite]
    rw [if_neg (show ¬ ratTrunc q < i64MinInt by omega),
      if_neg (show ¬ i64MaxInt < ratTrunc q by omega)]
  · simp only [parseVField]
    rw [hq]

/-- C9 witness: the integral value 42 round-trips. -/
theorem integer_roundtrip_i64_range_witness :
    serializeValueField (.FloatingPoint (.finite (qOfInt 42))) =
      ("v", .int (ratTrunc (qOfInt 42))) ∧
    parseVField (.int (ratTrunc (qOfInt 42))) = some (.finite (qOfInt 42)) :=
  integer_roundtrip_i64_range (qOfInt 42) (by decide) (by decide) (by decide)

/-- C10: an empty-string base-name counts as present: without an own name the
resolution fails with the invalid-name error (not missing-name) at that
index; with an own name, the resolved name is exactly the own name; and the
missing-name error occurs only when base-name and own name are both entirely
absent. -/
theorem empty_base_name_present :
    (∀ (ctx : Context) (r : SenMLRecord) (i : ℕ) (now : DateTime),
      versionOk ctx r = true → (updateBaseFields ctx r).base_name = some "" →
      (r.name = none → resolveStep ctx r i now = .err (.InvalidNameInRecord i)) ∧
      (∀ n res ctx', r.name = some n → resolveStep ctx r i now = .ok res ctx' →
        res.name = n)) ∧
    (∀ (ctx : Context) (r : SenMLRecord) (i : ℕ) (now : DateTime),
      resolveStep ctx r i now = .err (.MissingName i) →
      (updateBaseFields ctx r).base_name = none ∧ r.name = none) :=
  ⟨fun ctx r i now hv hbn => empty_base_name_step ctx r i now hv hbn,
   fun ctx r i now h => missing_name_only_when_both_absent ctx r i now h⟩

/-- C10 witness: bn empty-string with no own name gives the invalid-name
error; with own name "n1" the resolved name is "n1". -/
theorem empty_base_name_present_witness :
    resolveStep initialContext recEmptyBase 0 now0 = .err (.InvalidNameInRecord 0) ∧
    resN1.name = "n1" :=
  ⟨(empty_base_name_present.1 initialContext recEmptyBase 0 now0 rfl rfl).1 rfl,
   (empty_base_name_present.1 initialContext recEmptyBaseOwn 0 now0 rfl rfl).2
     "n1" resN1 ctxN1 rfl rfl⟩

end SenML
